import Mathlib

/-!
A verification development for the log-analysis core of the rtools
repository (src/loganalyzer.rs).  The Rust code is shallowly embedded:
strings are modeled through their character lists, the chrono timestamp
parser is modeled by an item-by-item format runner, Rust HashMaps are
modeled as association lists in first-insertion order, and the stable
Vec::sort_by is modeled by a stable insertion sort (the output of a stable
sort is uniquely determined by the comparator and the input order).
-/

namespace Rtools

/-! ## Models of the Rust string primitives used by the analyzer -/

/-- Model of Rust str::trim: drop whitespace from both ends.  Rust trims
Unicode whitespace; Char.isWhitespace covers the ASCII subset, which agrees
with Rust on all ASCII input. -/
def trimWS (l : List Char) : List Char :=
  ((l.dropWhile Char.isWhitespace).reverse.dropWhile Char.isWhitespace).reverse

/-- Split a character list at every character satisfying p, keeping empty
pieces between consecutive separators.  The result is always nonempty. -/
def splitP (p : Char → Bool) : List Char → List (List Char)
  | [] => [[]]
  | c :: cs =>
    match splitP p cs with
    | [] => [[]]
    | q :: ps => if p c then [] :: q :: ps else (c :: q) :: ps

/-- Model of Rust str::split on a single separator character. -/
def splitCh (sep : Char) (l : List Char) : List (List Char) :=
  splitP (fun c => c == sep) l

/-- Model of Rust str::split_whitespace: maximal runs of non-whitespace
characters, with no empty tokens. -/
def splitWS (l : List Char) : List (List Char) :=
  (splitP Char.isWhitespace l).filter (fun w => !w.isEmpty)

/-- Drop one trailing carriage return, used by the model of str::lines. -/
def stripCR (l : List Char) : List Char :=
  match l.getLast? with
  | some c => if c = '\r' then l.dropLast else l
  | none => l

/-- Model of Rust str::lines: split on the newline character, a final line
terminator is optional (a trailing empty piece is dropped), and every
newline-terminated piece loses one trailing carriage return. -/
def linesOf (l : List Char) : List (List Char) :=
  let ps := splitCh '\n' l
  match ps.getLast? with
  | some last =>
    if last.isEmpty then ps.dropLast.map stripCR
    else ps.dropLast.map stripCR ++ [last]
  | none => []

/-- Byte length of a token under UTF-8, the model of Rust str::len. -/
def utf8Len (w : List Char) : Nat := (w.map Char.utf8Size).sum

/-! ## Model of the chrono timestamp parsing used by parse_timestamp

The source calls NaiveDateTime::parse_from_str with the four format strings
"%Y-%m-%d %H:%M:%S", "%Y-%m-%d %H:%M:%S%.3f", "%Y-%m-%dT%H:%M:%S" and
"%Y-%m-%dT%H:%M:%SZ".  chrono compiles a format string into a sequence of
items (numeric fields, literals, whitespace, fractions), runs them over the
input, fails if input remains after the last item, and then validates the
collected fields into a date and a time.  The model below reproduces that
pipeline for the item kinds appearing in these four formats. -/

/-- A parsed calendar timestamp, interpreted in UTC (the source attaches the
Utc offset to the parsed naive datetime).  The fractional part is kept in
milliseconds, the resolution of the %.3f format item. -/
structure DateTime where
  year : Int
  month : Nat
  day : Nat
  hour : Nat
  minute : Nat
  second : Nat
  millis : Nat
deriving DecidableEq

/-- Mixed-radix encoding of a timestamp.  On the validated field ranges
(month up to 12, day up to 31, hour up to 23, minute up to 59, second up to
60, millis up to 999) the encoding is strictly monotone for lexicographic
field order, so comparing keys models the chronological Ord instance of
chrono DateTime, including its placement of leap seconds. -/
def DateTime.key (t : DateTime) : Int :=
  (((((t.year * 13 + (t.month : Int)) * 32 + (t.day : Int)) * 24 + (t.hour : Int)) * 60
      + (t.minute : Int)) * 61 + (t.second : Int)) * 1000 + (t.millis : Int)

/-- One item of a compiled chrono format string, restricted to the item
kinds occurring in the four formats of parse_timestamp. -/
inductive FmtItem where
  | lit (c : Char)
  | ws
  | year
  | month
  | day
  | hour
  | minute
  | second
  | frac3
deriving DecidableEq

/-- Accumulator of the fields collected while running format items, the
model of chrono Parsed. -/
structure ParsedDT where
  year : Option Int := none
  month : Option Nat := none
  day : Option Nat := none
  hour : Option Nat := none
  minute : Option Nat := none
  second : Option Nat := none
  millis : Option Nat := none
deriving DecidableEq

/-- Numeric value of a digit run. -/
def digitsToNat (ds : List Char) : Nat :=
  ds.foldl (fun n c => n * 10 + (c.toNat - 48)) 0

/-- Greedy scan of one to w leading decimal digits, the model of chrono
scan::number with minimum one digit. -/
def scanNum (w : Nat) (l : List Char) : Option (Nat × List Char) :=
  let ds := (l.take w).takeWhile Char.isDigit
  if ds.isEmpty then none else some (digitsToNat ds, l.drop ds.length)

/-- Scan a year, the model of the signed %Y numeric item: with an explicit
sign chrono accepts an unbounded digit run, without one at most four
digits.  (chrono rejects oversized signed values as out of range; the model
rejects them during validation through the year bounds, with the same
observable failure of the whole parse.) -/
def scanYear (l : List Char) : Option (Int × List Char) :=
  match l with
  | '-' :: rest => (scanNum rest.length rest).map (fun r => (-(r.1 : Int), r.2))
  | '+' :: rest => (scanNum rest.length rest).map (fun r => ((r.1 : Int), r.2))
  | _ => (scanNum 4 l).map (fun r => ((r.1 : Int), r.2))

/-- Run one format item, the model of one step of the chrono parser:
numeric items skip leading whitespace before scanning, a literal item
consumes exactly its character, a whitespace item skips any (possibly
empty) whitespace run, and the fixed three-digit fraction item consumes
nothing when no dot follows but demands exactly three digits after a dot. -/
def runItem (st : ParsedDT × List Char) (it : FmtItem) : Option (ParsedDT × List Char) :=
  match it with
  | .lit c =>
    match st.2 with
    | x :: rest => if x = c then some (st.1, rest) else none
    | [] => none
  | .ws => some (st.1, st.2.dropWhile Char.isWhitespace)
  | .year =>
    (scanYear (st.2.dropWhile Char.isWhitespace)).map
      (fun r => ({ st.1 with year := some r.1 }, r.2))
  | .month =>
    (scanNum 2 (st.2.dropWhile Char.isWhitespace)).map
      (fun r => ({ st.1 with month := some r.1 }, r.2))
  | .day =>
    (scanNum 2 (st.2.dropWhile Char.isWhitespace)).map
      (fun r => ({ st.1 with day := some r.1 }, r.2))
  | .hour =>
    (scanNum 2 (st.2.dropWhile Char.isWhitespace)).map
      (fun r => ({ st.1 with hour := some r.1 }, r.2))
  | .minute =>
    (scanNum 2 (st.2.dropWhile Char.isWhitespace)).map
      (fun r => ({ st.1 with minute := some r.1 }, r.2))
  | .second =>
    (scanNum 2 (st.2.dropWhile Char.isWhitespace)).map
      (fun r => ({ st.1 with second := some r.1 }, r.2))
  | .frac3 =>
    match st.2 with
    | '.' :: rest =>
      let ds := rest.take 3
      if ds.length = 3 ∧ ds.all Char.isDigit then
        some ({ st.1 with millis := some (digitsToNat ds) }, rest.drop 3)
      else none
    | _ => some st

/-- Run a list of format items over the input from an empty accumulator. -/
def runItems (items : List FmtItem) (l : List Char) : Option (ParsedDT × List Char) :=
  items.foldlM runItem ({}, l)

/-- Proleptic Gregorian leap-year rule, as used by chrono NaiveDate. -/
def isLeapYear (y : Int) : Bool :=
  y % 4 == 0 && (y % 100 != 0 || y % 400 == 0)

/-- Length of a month in the proleptic Gregorian calendar. -/
def daysInMonth (y : Int) (m : Nat) : Nat :=
  if m = 1 ∨ m = 3 ∨ m = 5 ∨ m = 7 ∨ m = 8 ∨ m = 10 ∨ m = 12 then 31
  else if m = 4 ∨ m = 6 ∨ m = 9 ∨ m = 11 then 30
  else if m = 2 then (if isLeapYear y then 29 else 28)
  else 0

/-- Validate the collected fields into a timestamp, the model of turning a
chrono Parsed into a NaiveDateTime: every date and time field must have
been set, the date must exist in the proleptic Gregorian calendar within
the year range of chrono NaiveDate, hour and minute must be in range, and
second 60 is accepted (chrono represents it as a leap second).  A missing
fraction defaults to zero. -/
def finishParsed (p : ParsedDT) : Option DateTime := do
  let y ← p.year
  let mo ← p.month
  let d ← p.day
  let h ← p.hour
  let mi ← p.minute
  let s ← p.second
  let ms := p.millis.getD 0
  if 1 ≤ mo ∧ mo ≤ 12 ∧ 1 ≤ d ∧ d ≤ daysInMonth y mo ∧ h ≤ 23 ∧ mi ≤ 59 ∧ s ≤ 60 ∧
      -262144 ≤ y ∧ y ≤ 262143 then
    some ⟨y, mo, d, h, mi, s, ms⟩
  else none

/-- Model of NaiveDateTime::parse_from_str with one compiled format: run the
items, demand that the entire input was consumed, then validate. -/
def parseFormat (items : List FmtItem) (s : String) : Option DateTime :=
  match runItems items s.data with
  | some (p, []) => finishParsed p
  | _ => none

/-- The compiled format "%Y-%m-%d %H:%M:%S". -/
def fmtYmdHms : List FmtItem :=
  [.year, .lit '-', .month, .lit '-', .day, .ws, .hour, .lit ':', .minute, .lit ':', .second]

/-- The compiled format "%Y-%m-%d %H:%M:%S%.3f". -/
def fmtYmdHmsF : List FmtItem := fmtYmdHms ++ [.frac3]

/-- The compiled format "%Y-%m-%dT%H:%M:%S". -/
def fmtIsoT : List FmtItem :=
  [.year, .lit '-', .month, .lit '-', .day, .lit 'T', .hour, .lit ':', .minute, .lit ':', .second]

/-- The compiled format "%Y-%m-%dT%H:%M:%SZ". -/
def fmtIsoTZ : List FmtItem := fmtIsoT ++ [.lit 'Z']

/-- The ordered format list of parse_timestamp, in source order. -/
def tsFormats : List (List FmtItem) := [fmtYmdHms, fmtYmdHmsF, fmtIsoT, fmtIsoTZ]

/-- The loop of parse_timestamp over its format list: return the first
successful full parse. -/
def tryFormats (s : String) : List (List FmtItem) → Option DateTime
  | [] => none
  | f :: rest =>
    match parseFormat f s with
    | some t => some t
    | none => tryFormats s rest

/-- Model of parse_timestamp from src/loganalyzer.rs. -/
def parse_timestamp (s : String) : Option DateTime := tryFormats s tsFormats

/-! ## The log data model of src/loganalyzer.rs -/

/-- Model of the LogLevel enum. -/
inductive LogLevel where
  | Debug
  | Info
  | Warning
  | Error
  | Critical
  | Unknown (s : String)
deriving DecidableEq

/-- Model of LogLevel::parse: lower-case the token (Rust to_lowercase and
Char.toLower agree on ASCII) and match it exactly. -/
def LogLevel.parse (s : String) : LogLevel :=
  let lower : String := ⟨s.data.map Char.toLower⟩
  if lower = "debug" then .Debug
  else if lower = "info" then .Info
  else if lower = "warning" ∨ lower = "warn" then .Warning
  else if lower = "error" ∨ lower = "err" then .Error
  else if lower = "critical" ∨ lower = "fatal" then .Critical
  else .Unknown s

/-- Model of LogLevel::severity. -/
def LogLevel.severity : LogLevel → Nat
  | .Debug => 0
  | .Info => 1
  | .Warning => 2
  | .Error => 3
  | .Critical => 4
  | .Unknown _ => 0

/-- Model of the LogEntry struct. -/
structure LogEntry where
  timestamp : Option DateTime
  level : LogLevel
  message : String
  source : Option String
  line_number : Option Nat
deriving DecidableEq

/-- Model of parse_standard_format: trim the line, demand a leading bracket,
split on the closing bracket into at least three parts; part 0 without its
leading brackets is the timestamp candidate, part 1 without its leading
brackets and trimmed is the level candidate, the remaining parts rejoined
with the closing bracket and trimmed are the message. -/
def parse_standard_format (line : String) : Option LogEntry :=
  let l := trimWS line.data
  match l with
  | '[' :: _ =>
    let parts := splitCh ']' l
    if parts.length < 3 then none
    else
      let timestamp_str := (parts.getD 0 []).dropWhile (fun c => c == '[')
      let timestamp := parse_timestamp ⟨timestamp_str⟩
      let level_str := trimWS ((parts.getD 1 []).dropWhile (fun c => c == '['))
      let level := LogLevel.parse ⟨level_str⟩
      let message := trimWS (List.intercalate [']'] (parts.drop 2))
      some ⟨timestamp, level, ⟨message⟩, none, none⟩
  | _ => none

/-- Model of parse_simple_format: split the raw line on whitespace into at
least three tokens; tokens 0 and 1 joined with a space are the timestamp
candidate, token 2 is the level candidate, the remaining tokens rejoined
with single spaces are the message. -/
def parse_simple_format (line : String) : Option LogEntry :=
  let parts := splitWS line.data
  if parts.length < 3 then none
  else
    let timestamp_str := parts.getD 0 [] ++ ' ' :: parts.getD 1 []
    let timestamp := parse_timestamp ⟨timestamp_str⟩
    let level := LogLevel.parse ⟨parts.getD 2 []⟩
    let message := List.intercalate [' '] (parts.drop 3)
    some ⟨timestamp, level, ⟨message⟩, none, none⟩

/-- The default entry built by parse_log_line when both matchers fail. -/
def fallbackEntry (line : String) : LogEntry :=
  ⟨none, .Unknown "unknown", line, none, none⟩

/-- Model of parse_log_line: the bracketed matcher, then the whitespace
matcher, then the fallback entry. -/
def parse_log_line (line : String) : Option LogEntry :=
  match parse_standard_format line with
  | some e => some e
  | none =>
    match parse_simple_format line with
    | some e => some e
    | none => some (fallbackEntry line)

/-- Model of the LogAnalysis struct.  The Rust HashMap fields are modeled
as association lists with pairwise distinct keys, listed in first-insertion
order (a canonical representative of the unordered map contents). -/
structure LogAnalysis where
  total_entries : Nat
  level_distribution : List (LogLevel × Nat)
  time_distribution : List (String × Nat)
  error_patterns : List (String × Nat)
  top_messages : List (String × Nat)
  time_range : Option (DateTime × DateTime)
deriving DecidableEq

/-- Model of the HashMap increment idiom entry(k).or_insert(0) += 1 on an
association list. -/
def bump {α : Type} [DecidableEq α] (m : List (α × Nat)) (k : α) : List (α × Nat) :=
  match m with
  | [] => [(k, 1)]
  | (k0, v) :: rest => if k0 = k then (k0, v + 1) :: rest else (k0, v) :: bump rest k

/-- Sum of the values of an association list. -/
def sumVals {α : Type} (m : List (α × Nat)) : Nat := (m.map Prod.snd).sum

/-- The comparator of the top_messages sort: sort_by on b.1.cmp(a.1), that
is by descending count. -/
def descCount {α : Type} (a b : α × Nat) : Prop := b.2 ≤ a.2

instance {α : Type} : DecidableRel (descCount (α := α)) :=
  fun a b => Nat.decLe b.2 a.2

instance {α : Type} : IsTotal (α × Nat) (descCount (α := α)) :=
  ⟨fun a b => (Nat.le_total b.2 a.2).imp id id⟩

instance {α : Type} : IsTrans (α × Nat) (descCount (α := α)) :=
  ⟨fun _ _ _ h1 h2 => Nat.le_trans h2 h1⟩

/-- Chronological order on timestamps through the monotone key. -/
def dtLE (a b : DateTime) : Prop := a.key ≤ b.key

instance : DecidableRel dtLE := fun a b => Int.decLe a.key b.key

instance : IsTotal DateTime dtLE := ⟨fun a b => Int.le_total a.key b.key⟩

instance : IsTrans DateTime dtLE := ⟨fun _ _ _ h1 h2 => Int.le_trans h1 h2⟩

/-- Hour-bucket key ts.format("%Y-%m-%d %H"): zero-padded fields. -/
def padNum (width : Nat) (n : Nat) : List Char :=
  let ds := Nat.toDigits 10 n
  List.replicate (width - ds.length) '0' ++ ds

/-- Zero-padded year with a sign for negative years. -/
def padYear (y : Int) : List Char :=
  if y < 0 then '-' :: padNum 4 y.natAbs else padNum 4 y.toNat

/-- The hour-bucket key of a timestamp. -/
def hourKey (t : DateTime) : String :=
  ⟨padYear t.year ++ '-' :: padNum 2 t.month ++ '-' :: padNum 2 t.day ++ ' ' :: padNum 2 t.hour⟩

/-- The event sequence of one analysis: every line of the content yields
the entry produced by parse_log_line. -/
def entriesOf (content : String) : List LogEntry :=
  (linesOf content.data).filterMap (fun l => parse_log_line ⟨l⟩)

/-- The message-occurrence map (insertion order), the model of the
message_counts HashMap contents. -/
def messageCountsOf (content : String) : List (String × Nat) :=
  (entriesOf content).foldl (fun m e => bump m e.message) []

/-- The level histogram: one increment per entry, keyed by its level. -/
def levelDistOf (content : String) : List (LogLevel × Nat) :=
  (entriesOf content).foldl (fun m e => bump m e.level) []

/-- The timestamps of the entries that carry one, in entry order. -/
def timestampsOf (content : String) : List DateTime :=
  (entriesOf content).filterMap (fun e => e.timestamp)

/-- The hour histogram: one increment per timestamped entry, keyed by the
hour bucket of its timestamp. -/
def timeDistOf (content : String) : List (String × Nat) :=
  (timestampsOf content).foldl (fun m t => bump m (hourKey t)) []

/-- The time range: sort the collected timestamps and take the first and
the last, absent when there are none. -/
def timeRangeOf (content : String) : Option (DateTime × DateTime) :=
  match List.insertionSort dtLE (timestampsOf content) with
  | [] => none
  | t :: rest => some (t, rest.getLastD t)

/-- The error-pattern histogram: over every entry of severity at least the
severity of Error, every whitespace-separated token of its message whose
UTF-8 length exceeds three and that contains an uppercase character is
counted. -/
def errorPatternsOf (content : String) : List (String × Nat) :=
  (entriesOf content).foldl (fun m e =>
    if LogLevel.Error.severity ≤ e.level.severity then
      (splitWS e.message.data).foldl (fun m2 w =>
        if 3 < utf8Len w ∧ w.any Char.isUpper then bump m2 ⟨w⟩ else m2) m
    else m) []

/-- Model of the analysis that analyze_log_file performs on the file
content.  The parameter iter models the iteration order of the
message_counts HashMap when it is drained into a vector: Rust HashMap
iteration order is an unspecified, hash-seed-dependent permutation of the
contents, so a run of the program corresponds to analyzeWith applied to
some contents-preserving reordering; the identity models insertion order.
The structure mirrors the source: total count, early return on no entries,
level histogram, hour histogram, sorted time range, error-pattern
histogram, and the message ranking by a stable sort on descending count. -/
def analyzeWith (iter : List (String × Nat) → List (String × Nat))
    (content : String) : LogAnalysis :=
  let entries := entriesOf content
  if entries.isEmpty then
    { total_entries := entries.length, level_distribution := [], time_distribution := [],
      error_patterns := [], top_messages := [], time_range := none }
  else
    { total_entries := entries.length
      level_distribution := levelDistOf content
      time_distribution := timeDistOf content
      error_patterns := errorPatternsOf content
      top_messages := List.insertionSort descCount (iter (messageCountsOf content))
      time_range := timeRangeOf content }

/-- The analysis of a content string under the canonical (insertion-order)
draining of the message map. -/
def analyze (content : String) : LogAnalysis := analyzeWith id content

/-- The error type of the toolkit, restricted to the two constructors
reachable from analyze_log_file. -/
inductive RtoolsError where
  | FileNotFound (path : String)
  | IoError (path : String)
deriving DecidableEq

/-- Model of analyze_log_file: the file system is abstracted by an
existence predicate and a read function (none models a read error).  A
missing file surfaces FileNotFound, a failing read surfaces IoError, and
only a successfully read content is analyzed. -/
def analyze_log_file (fsExists : String → Bool) (fsRead : String → Option String)
    (file_path : String) : Except RtoolsError LogAnalysis :=
  if fsExists file_path then
    match fsRead file_path with
    | some content => .ok (analyze content)
    | none => .error (.IoError file_path)
  else
    .error (.FileNotFound file_path)


/-! ## Helper lemmas -/

theorem sumVals_nil {α : Type} : sumVals ([] : List (α × Nat)) = 0 := rfl

theorem sumVals_cons {α : Type} (p : α × Nat) (l : List (α × Nat)) :
    sumVals (p :: l) = p.2 + sumVals l := by
  simp [sumVals]

theorem sumVals_bump {α : Type} [DecidableEq α] (m : List (α × Nat)) (k : α) :
    sumVals (bump m k) = sumVals m + 1 := by
  induction m with
  | nil => rfl
  | cons p rest ih =>
    obtain ⟨k0, v⟩ := p
    by_cases h : k0 = k
    · simp [bump, h, sumVals_cons]
      omega
    · simp [bump, h, sumVals_cons, ih]
      omega

theorem foldl_bump_sum {α β : Type} [DecidableEq α] (f : β → α) (l : List β) :
    ∀ acc : List (α × Nat),
      sumVals (l.foldl (fun m e => bump m (f e)) acc) = sumVals acc + l.length := by
  induction l with
  | nil => intro acc; simp
  | cons x xs ih =>
    intro acc
    simp only [List.foldl_cons, ih, sumVals_bump, List.length_cons]
    omega

theorem bump_keys {α : Type} [DecidableEq α] (m : List (α × Nat)) (k : α) :
    (bump m k).map Prod.fst =
      if k ∈ m.map Prod.fst then m.map Prod.fst else m.map Prod.fst ++ [k] := by
  induction m with
  | nil => simp [bump]
  | cons p rest ih =>
    obtain ⟨k0, v⟩ := p
    by_cases h : k0 = k
    · simp [bump, h]
    · have h' : ¬ k = k0 := fun hh => h hh.symm
      simp only [bump, if_neg h, List.map_cons, ih, List.mem_cons]
      by_cases hmem : k ∈ rest.map Prod.fst <;> simp [hmem, h']

theorem bump_keys_nodup {α : Type} [DecidableEq α] (m : List (α × Nat)) (k : α)
    (hm : (m.map Prod.fst).Nodup) : ((bump m k).map Prod.fst).Nodup := by
  rw [bump_keys]
  split
  · exact hm
  · rename_i hk
    refine hm.append (List.nodup_singleton k) ?_
    intro x hx hxk
    rw [List.mem_singleton] at hxk
    subst hxk
    exact hk hx

theorem foldl_bump_keys_nodup {α β : Type} [DecidableEq α] (f : β → α) (l : List β) :
    ∀ acc : List (α × Nat), (acc.map Prod.fst).Nodup →
      ((l.foldl (fun m e => bump m (f e)) acc).map Prod.fst).Nodup := by
  induction l with
  | nil => intro acc h; simpa using h
  | cons x xs ih =>
    intro acc h
    exact ih _ (bump_keys_nodup _ _ h)

theorem bump_vals_pos {α : Type} [DecidableEq α] (m : List (α × Nat)) (k : α)
    (hm : ∀ p ∈ m, 1 ≤ p.2) : ∀ p ∈ bump m k, 1 ≤ p.2 := by
  induction m with
  | nil =>
    intro p hp
    simp [bump] at hp
    simp [hp]
  | cons q rest ih =>
    obtain ⟨k0, v⟩ := q
    intro p hp
    by_cases h : k0 = k
    · simp [bump, h] at hp
      rcases hp with hp | hp
      · simp [hp]
      · exact hm p (List.mem_cons_of_mem _ hp)
    · simp [bump, h] at hp
      rcases hp with hp | hp
      · exact hm p (hp ▸ List.mem_cons_self _ _)
      · exact ih (fun q hq => hm q (List.mem_cons_of_mem _ hq)) p hp

theorem foldl_bump_vals_pos {α β : Type} [DecidableEq α] (f : β → α) (l : List β) :
    ∀ acc : List (α × Nat), (∀ p ∈ acc, 1 ≤ p.2) →
      ∀ p ∈ l.foldl (fun m e => bump m (f e)) acc, 1 ≤ p.2 := by
  induction l with
  | nil => intro acc h; simpa using h
  | cons x xs ih =>
    intro acc h
    exact ih _ (bump_vals_pos _ _ h)

theorem length_filterMap_eq_iff {α β : Type} (f : α → Option β) (l : List α) :
    (l.filterMap f).length = l.length ↔ ∀ x ∈ l, (f x).isSome = true := by
  induction l with
  | nil => simp
  | cons x xs ih =>
    cases h : f x with
    | none =>
      have hle := List.length_filterMap_le f xs
      simp only [List.filterMap_cons, h, List.length_cons, List.mem_cons]
      constructor
      · intro hh; omega
      · intro hh
        have := hh x (Or.inl rfl)
        simp [h] at this
    | some b =>
      simp only [List.filterMap_cons, h, List.length_cons, List.mem_cons]
      constructor
      · intro hh
        intro y hy
        rcases hy with hy | hy
        · simp [hy, h]
        · exact (ih.mp (by omega)) y hy
      · intro hh
        have := ih.mpr (fun y hy => hh y (Or.inr hy))
        omega


theorem parse_log_line_isSome (line : String) : (parse_log_line line).isSome = true := by
  unfold parse_log_line
  split
  · rfl
  · split <;> rfl

theorem length_entriesOf (c : String) : (entriesOf c).length = (linesOf c.data).length := by
  unfold entriesOf
  rw [length_filterMap_eq_iff]
  intro x _
  exact parse_log_line_isSome _

theorem timestampsOf_eq_nil_iff (c : String) :
    timestampsOf c = [] ↔ ∀ e ∈ entriesOf c, e.timestamp = none := by
  unfold timestampsOf
  exact List.filterMap_eq_nil_iff

theorem getLastD_mem_or {α : Type} (l : List α) (d : α) :
    l.getLastD d = d ∨ l.getLastD d ∈ l := by
  induction l generalizing d with
  | nil => exact Or.inl rfl
  | cons a l ih =>
    right
    rw [List.getLastD_cons]
    rcases ih a with h | h
    · rw [h]; exact List.mem_cons_self _ _
    · exact List.mem_cons_of_mem _ h

theorem timeRangeOf_eq_none_iff (c : String) :
    timeRangeOf c = none ↔ timestampsOf c = [] := by
  have hp := List.perm_insertionSort dtLE (timestampsOf c)
  unfold timeRangeOf
  rcases h : List.insertionSort dtLE (timestampsOf c) with _ | ⟨t, rest⟩ <;> rw [h] at hp
  · simp [hp.symm.eq_nil]
  · constructor
    · intro hh
      simp at hh
    · intro hts
      rw [hts] at hp
      simpa using hp.eq_nil

theorem timeRangeOf_le (c : String) (r1 r2 : DateTime)
    (h : timeRangeOf c = some (r1, r2)) : r1.key ≤ r2.key := by
  have hs := List.sorted_insertionSort dtLE (timestampsOf c)
  unfold timeRangeOf at h
  rcases hh : List.insertionSort dtLE (timestampsOf c) with _ | ⟨t, rest⟩ <;> rw [hh] at h hs
  · simp at h
  · simp only [Option.some.injEq, Prod.mk.injEq] at h
    obtain ⟨h1, h2⟩ := h
    rcases getLastD_mem_or rest t with hcase | hcase
    · have hr : r2 = r1 := by rw [← h2, hcase, h1]
      rw [hr]
    · have hrel := List.rel_of_sorted_cons hs _ hcase
      rw [h2] at hrel
      rw [h1] at hrel
      exact hrel

theorem analyze_eq (c : String) :
    analyze c =
      { total_entries := (entriesOf c).length
        level_distribution := levelDistOf c
        time_distribution := timeDistOf c
        error_patterns := errorPatternsOf c
        top_messages := List.insertionSort descCount (messageCountsOf c)
        time_range := timeRangeOf c } := by
  by_cases he : (entriesOf c).isEmpty
  · rw [List.isEmpty_iff] at he
    simp [analyze, analyzeWith, levelDistOf, timeDistOf, timestampsOf, timeRangeOf,
      errorPatternsOf, messageCountsOf, he]
  · simp [analyze, analyzeWith, he]

theorem sumVals_levelDistOf (c : String) :
    sumVals (levelDistOf c) = (entriesOf c).length := by
  unfold levelDistOf
  rw [foldl_bump_sum]
  simp [sumVals_nil]

theorem sumVals_timeDistOf (c : String) :
    sumVals (timeDistOf c) = (timestampsOf c).length := by
  unfold timeDistOf
  rw [foldl_bump_sum]
  simp [sumVals_nil]

theorem messageCounts_sum (c : String) :
    sumVals (messageCountsOf c) = (entriesOf c).length := by
  unfold messageCountsOf
  rw [foldl_bump_sum]
  simp [sumVals_nil]

theorem messageCounts_keys_nodup (c : String) :
    ((messageCountsOf c).map Prod.fst).Nodup := by
  unfold messageCountsOf
  exact foldl_bump_keys_nodup _ _ _ (by simp)

theorem messageCounts_vals_pos (c : String) :
    ∀ p ∈ messageCountsOf c, 1 ≤ p.2 := by
  unfold messageCountsOf
  exact foldl_bump_vals_pos _ _ _ (by simp)


/-! ## Claim theorems -/

/-- C1: the code's behavior on the Scenario A input
"[2024-01-15 10:30:00] [INFO] service started\n".  The claim (and the
format example documented on parse_standard_format) expects level Info and
level_distribution mapping Info to 1; the code instead produces the level
Unknown "[INFO": splitting on the closing bracket leaves part 1 as
" [INFO", and the source strips leading opening brackets BEFORE trimming
whitespace, so the bracket survives and the level token never matches a
known level.  Timestamp, message and event count behave as claimed. -/
theorem scenarioA_level_keeps_bracket :
    entriesOf "[2024-01-15 10:30:00] [INFO] service started\n" =
      [⟨some ⟨2024, 1, 15, 10, 30, 0, 0⟩, .Unknown "[INFO", "service started", none, none⟩] ∧
    analyze "[2024-01-15 10:30:00] [INFO] service started\n" =
      { total_entries := 1
        level_distribution := [(.Unknown "[INFO", 1)]
        time_distribution := [("2024-01-15 10", 1)]
        error_patterns := []
        top_messages := [("service started", 1)]
        time_range := some (⟨2024, 1, 15, 10, 30, 0, 0⟩, ⟨2024, 1, 15, 10, 30, 0, 0⟩) } := by
  decide

/-- C2 counterexample: on the Scenario C input the whitespace-delimited
matcher structurally matches each three-token line, consuming all three
tokens as timestamp and level candidates, so the message of both events is
empty and top_messages is [("", 2)]; it does not contain the pair
("random unparseable garbage", 2) claimed by the spec. -/
theorem scenarioC_counterexample :
    (analyze "random unparseable garbage\nrandom unparseable garbage\n").top_messages =
      [("", 2)] ∧
    ("random unparseable garbage", 2) ∉
      (analyze "random unparseable garbage\nrandom unparseable garbage\n").top_messages := by
  decide

/-- C2 amended: the Scenario C input produces two events of Unknown level
(Unknown "garbage", the third whitespace token) with empty messages, and
top_messages contains ("", 2) as its only entry. -/
theorem scenarioC_amended :
    entriesOf "random unparseable garbage\nrandom unparseable garbage\n" =
      [⟨none, .Unknown "garbage", "", none, none⟩, ⟨none, .Unknown "garbage", "", none, none⟩] ∧
    analyze "random unparseable garbage\nrandom unparseable garbage\n" =
      { total_entries := 2
        level_distribution := [(.Unknown "garbage", 2)]
        time_distribution := []
        error_patterns := []
        top_messages := [("", 2)]
        time_range := none } := by
  decide

/-- C3 counterexample: the input consisting of one empty line yields
total_entries 1, while it has zero non-empty lines — empty lines are not
skipped; the fallback turns them into events too. -/
theorem empty_line_counted :
    (analyze "\n").total_entries = 1 ∧
    ((linesOf ("\n").data).filter (fun l => !l.isEmpty)).length = 0 := by
  decide

/-- C3 amended: for every input text, total_entries equals the number of
lines produced by the line splitter (final line terminator optional), and
every line — empty ones included — produces exactly one event. -/
theorem every_line_one_event (content : String) :
    (analyze content).total_entries = (linesOf content.data).length ∧
    (entriesOf content).length = (linesOf content.data).length := by
  have h := length_entriesOf content
  refine ⟨?_, h⟩
  rw [analyze_eq]
  exact h

/-- C4 counterexample: two draining orders of the message-count map, both
permutations of the same contents and hence both realizable iteration
orders of a Rust HashMap under some hash seed, give different analyses of
the same text: the stable sort preserves the incoming order of the two
tied messages. -/
theorem tie_order_not_run_invariant :
    (List.reverse (messageCountsOf "a\nb")).Perm (messageCountsOf "a\nb") ∧
    analyzeWith List.reverse "a\nb" ≠ analyzeWith id "a\nb" :=
  ⟨List.reverse_perm _, by decide⟩

/-- C4 amended: the analysis is deterministic except for the order of tied
entries of top_messages: whatever contents-preserving draining order the
message-count HashMap exhibits, every other field of the result is
bit-identical to the canonical run, and top_messages is the same list of
pairs up to order. -/
theorem analysis_deterministic_up_to_ties (content : String)
    (iter : List (String × Nat) → List (String × Nat))
    (h : (iter (messageCountsOf content)).Perm (messageCountsOf content)) :
    (analyzeWith iter content).total_entries = (analyze content).total_entries ∧
    (analyzeWith iter content).level_distribution = (analyze content).level_distribution ∧
    (analyzeWith iter content).time_distribution = (analyze content).time_distribution ∧
    (analyzeWith iter content).error_patterns = (analyze content).error_patterns ∧
    (analyzeWith iter content).time_range = (analyze content).time_range ∧
    (analyzeWith iter content).top_messages.Perm (analyze content).top_messages := by
  by_cases he : (entriesOf content).isEmpty
  · simp [analyze, analyzeWith, he]
  · refine ⟨?_, ?_, ?_, ?_, ?_, ?_⟩ <;>
      simp only [analyze, analyzeWith, he, if_false, Bool.false_eq_true, id]
    exact (List.perm_insertionSort descCount _).trans
      (h.trans (List.perm_insertionSort descCount _).symm)

/-- C4 witness: the amended determinism theorem applied to the concrete
text "a\nb" and the reversed draining order. -/
theorem analysis_deterministic_witness :
    (analyzeWith List.reverse "a\nb").total_entries = (analyze "a\nb").total_entries ∧
    (analyzeWith List.reverse "a\nb").top_messages.Perm (analyze "a\nb").top_messages := by
  have h := analysis_deterministic_up_to_ties "a\nb" List.reverse (List.reverse_perm _)
  exact ⟨h.1, h.2.2.2.2.2⟩

/-- C5: content never fails the analysis — the line recognizer produces an
event for every line, falling back to an Unknown "unknown" event carrying
the whole line when both matchers fail — and the path-based entry point
fails exactly when the file cannot be read, with a distinct error surfaced
before any analysis: FileNotFound for a missing file and IoError for a
failing read. -/
theorem analysis_total_and_read_errors (line : String) (fsE : String → Bool)
    (fsR : String → Option String) (path : String) :
    (parse_log_line line).isSome = true ∧
    (parse_standard_format line = none → parse_simple_format line = none →
      parse_log_line line = some (fallbackEntry line)) ∧
    ((∃ a, analyze_log_file fsE fsR path = .ok a) ↔
      (fsE path = true ∧ (fsR path).isSome = true)) ∧
    (fsE path = false → analyze_log_file fsE fsR path = .error (.FileNotFound path)) ∧
    (fsE path = true → fsR path = none →
      analyze_log_file fsE fsR path = .error (.IoError path)) := by
  refine ⟨parse_log_line_isSome line, ?_, ?_, ?_, ?_⟩
  · intro h1 h2
    simp [parse_log_line, h1, h2]
  · cases hfe : fsE path with
    | false => simp [analyze_log_file, hfe]
    | true =>
      cases hfr : fsR path with
      | none => simp [analyze_log_file, hfe, hfr]
      | some v => simp [analyze_log_file, hfe, hfr]
  · intro h
    simp [analyze_log_file, h]
  · intro h1 h2
    simp [analyze_log_file, h1, h2]

/-- C5 witness: the totality theorem at a concrete unparsable line and a
file system without the requested file. -/
theorem analysis_total_witness :
    parse_log_line "random" = some (fallbackEntry "random") ∧
    analyze_log_file (fun _ => false) (fun _ => none) "app.log" =
      .error (.FileNotFound "app.log") := by
  refine ⟨(analysis_total_and_read_errors "random" (fun _ => false) (fun _ => none)
      "app.log").2.1 (by decide) (by decide),
    (analysis_total_and_read_errors "random" (fun _ => false) (fun _ => none)
      "app.log").2.2.2.1 rfl⟩

/-- C6: for every input text the counts of level_distribution sum to
total_entries. -/
theorem level_distribution_sums_to_total (content : String) :
    sumVals (analyze content).level_distribution = (analyze content).total_entries := by
  rw [analyze_eq]
  exact sumVals_levelDistOf content

/-- C7: time_range is present exactly when some event carries a timestamp
and is ordered when present, and the counts of time_distribution sum to at
most total_entries, with equality exactly when every event carries a
timestamp. -/
theorem time_range_and_distribution (content : String) :
    ((analyze content).time_range.isSome = true ↔
      ∃ e ∈ entriesOf content, e.timestamp.isSome = true) ∧
    (∀ r1 r2 : DateTime, (analyze content).time_range = some (r1, r2) →
      r1.key ≤ r2.key) ∧
    sumVals (analyze content).time_distribution ≤ (analyze content).total_entries ∧
    (sumVals (analyze content).time_distribution = (analyze content).total_entries ↔
      ∀ e ∈ entriesOf content, e.timestamp.isSome = true) := by
  rw [analyze_eq]
  have h1 : timeRangeOf content = none ↔ ∀ e ∈ entriesOf content, e.timestamp = none :=
    (timeRangeOf_eq_none_iff content).trans (timestampsOf_eq_nil_iff content)
  refine ⟨?_, ?_, ?_, ?_⟩
  · show (timeRangeOf content).isSome = true ↔ _
    constructor
    · intro hs
      by_contra hex
      push_neg at hex
      have hall : ∀ e ∈ entriesOf content, e.timestamp = none := by
        intro e he
        have hne := hex e he
        cases hts : e.timestamp with
        | none => rfl
        | some v => rw [hts] at hne; simp at hne
      rw [h1.mpr hall] at hs
      simp at hs
    · rintro ⟨e, he, hts⟩
      cases hcase : timeRangeOf content with
      | some r => rfl
      | none =>
        have := h1.mp hcase e he
        rw [this] at hts
        simp at hts
  · intro r1 r2 h
    exact timeRangeOf_le content r1 r2 h
  · show sumVals (timeDistOf content) ≤ (entriesOf content).length
    rw [sumVals_timeDistOf]
    unfold timestampsOf
    exact List.length_filterMap_le _ _
  · show sumVals (timeDistOf content) = (entriesOf content).length ↔ _
    rw [sumVals_timeDistOf]
    unfold timestampsOf
    exact length_filterMap_eq_iff _ _

/-- C7 witness: the theorem applied to a two-line text whose events carry
the timestamps 10:31 and 10:30; the range is the sorted pair and its key
comparison is discharged concretely. -/
theorem time_range_witness :
    (analyze "2024-01-15 10:31:00 ERROR alpha beta\n[2024-01-15 10:30:00] [INFO] service started").time_range =
      some (⟨2024, 1, 15, 10, 30, 0, 0⟩, ⟨2024, 1, 15, 10, 31, 0, 0⟩) ∧
    DateTime.key ⟨2024, 1, 15, 10, 30, 0, 0⟩ ≤ DateTime.key ⟨2024, 1, 15, 10, 31, 0, 0⟩ := by
  refine ⟨by decide, ?_⟩
  exact (time_range_and_distribution
    "2024-01-15 10:31:00 ERROR alpha beta\n[2024-01-15 10:30:00] [INFO] service started").2.1
    ⟨2024, 1, 15, 10, 30, 0, 0⟩ ⟨2024, 1, 15, 10, 31, 0, 0⟩ (by decide)

/-- C8: parse_timestamp returns the value of the first of the four formats
(in source order) that fully parses the candidate, is none exactly when all
four formats fail, and a succeeding format consumes the entire candidate
string — a run of its items that leaves a remainder yields the value only
when that remainder is empty, so there are no partial matches. -/
theorem parse_timestamp_ordered (s : String) :
    (∀ t, parse_timestamp s = some t →
      (parseFormat fmtYmdHms s = some t ∨
       (parseFormat fmtYmdHms s = none ∧ parseFormat fmtYmdHmsF s = some t) ∨
       (parseFormat fmtYmdHms s = none ∧ parseFormat fmtYmdHmsF s = none ∧
         parseFormat fmtIsoT s = some t) ∨
       (parseFormat fmtYmdHms s = none ∧ parseFormat fmtYmdHmsF s = none ∧
         parseFormat fmtIsoT s = none ∧ parseFormat fmtIsoTZ s = some t))) ∧
    (parse_timestamp s = none ↔
      (parseFormat fmtYmdHms s = none ∧ parseFormat fmtYmdHmsF s = none ∧
        parseFormat fmtIsoT s = none ∧ parseFormat fmtIsoTZ s = none)) ∧
    (∀ f ∈ tsFormats, ∀ (t : DateTime) (p : ParsedDT) (rest : List Char),
      parseFormat f s = some t → runItems f s.data = some (p, rest) →
      rest = [] ∧ finishParsed p = some t) := by
  refine ⟨?_, ?_, ?_⟩
  · intro t h
    simp only [parse_timestamp, tsFormats, tryFormats] at h
    by_cases e1 : parseFormat fmtYmdHms s = none
    · rw [e1] at h
      by_cases e2 : parseFormat fmtYmdHmsF s = none
      · rw [e2] at h
        by_cases e3 : parseFormat fmtIsoT s = none
        · rw [e3] at h
          by_cases e4 : parseFormat fmtIsoTZ s = none
          · rw [e4] at h
            simp at h
          · rcases Option.ne_none_iff_exists'.mp e4 with ⟨t4, h4⟩
            rw [h4] at h
            simp at h
            subst h
            exact Or.inr (Or.inr (Or.inr ⟨e1, e2, e3, h4⟩))
        · rcases Option.ne_none_iff_exists'.mp e3 with ⟨t3, h3⟩
          rw [h3] at h
          simp at h
          subst h
          exact Or.inr (Or.inr (Or.inl ⟨e1, e2, h3⟩))
      · rcases Option.ne_none_iff_exists'.mp e2 with ⟨t2, h2⟩
        rw [h2] at h
        simp at h
        subst h
        exact Or.inr (Or.inl ⟨e1, h2⟩)
    · rcases Option.ne_none_iff_exists'.mp e1 with ⟨t1, h1⟩
      rw [h1] at h
      simp at h
      subst h
      exact Or.inl h1
  · simp only [parse_timestamp, tsFormats, tryFormats]
    cases h1 : parseFormat fmtYmdHms s <;>
      cases h2 : parseFormat fmtYmdHmsF s <;>
        cases h3 : parseFormat fmtIsoT s <;>
          cases h4 : parseFormat fmtIsoTZ s <;>
            simp [h1, h2, h3, h4]
  · intro f _ t p rest hpf hrun
    unfold parseFormat at hpf
    rw [hrun] at hpf
    cases rest with
    | nil =>
      refine ⟨rfl, ?_⟩
      simpa using hpf
    | cons a as => simp at hpf

/-- C8 witness: the candidate "2024-01-15T10:30:00Z" is rejected by the
first three formats and fully parsed by the fourth, and the successful run
of the fourth format's items consumes the whole string. -/
theorem parse_timestamp_ordered_witness :
    (parseFormat fmtYmdHms "2024-01-15T10:30:00Z" = some ⟨2024, 1, 15, 10, 30, 0, 0⟩ ∨
     (parseFormat fmtYmdHms "2024-01-15T10:30:00Z" = none ∧
       parseFormat fmtYmdHmsF "2024-01-15T10:30:00Z" = some ⟨2024, 1, 15, 10, 30, 0, 0⟩) ∨
     (parseFormat fmtYmdHms "2024-01-15T10:30:00Z" = none ∧
       parseFormat fmtYmdHmsF "2024-01-15T10:30:00Z" = none ∧
       parseFormat fmtIsoT "2024-01-15T10:30:00Z" = some ⟨2024, 1, 15, 10, 30, 0, 0⟩) ∨
     (parseFormat fmtYmdHms "2024-01-15T10:30:00Z" = none ∧
       parseFormat fmtYmdHmsF "2024-01-15T10:30:00Z" = none ∧
       parseFormat fmtIsoT "2024-01-15T10:30:00Z" = none ∧
       parseFormat fmtIsoTZ "2024-01-15T10:30:00Z" = some ⟨2024, 1, 15, 10, 30, 0, 0⟩)) ∧
    (([] : List Char) = [] ∧
      finishParsed ⟨some 2024, some 1, some 15, some 10, some 30, some 0, none⟩ =
        some ⟨2024, 1, 15, 10, 30, 0, 0⟩) := by
  refine ⟨(parse_timestamp_ordered "2024-01-15T10:30:00Z").1
      ⟨2024, 1, 15, 10, 30, 0, 0⟩ (by decide),
    (parse_timestamp_ordered "2024-01-15T10:30:00Z").2.2 fmtIsoTZ (by decide)
      ⟨2024, 1, 15, 10, 30, 0, 0⟩ ⟨some 2024, some 1, some 15, some 10, some 30, some 0, none⟩
      [] (by decide) (by decide)⟩

/-- C9: the Scenario B input is rejected by the bracketed matcher, matched
by the whitespace matcher with level Error, timestamp 10:31 and message
"NullPointerException thrown", and error_patterns counts the token
"NullPointerException" once. -/
theorem scenarioB_whitespace_format :
    parse_standard_format "2024-01-15 10:31:00 ERROR NullPointerException thrown" = none ∧
    parse_simple_format "2024-01-15 10:31:00 ERROR NullPointerException thrown" =
      some ⟨some ⟨2024, 1, 15, 10, 31, 0, 0⟩, .Error, "NullPointerException thrown",
        none, none⟩ ∧
    analyze "2024-01-15 10:31:00 ERROR NullPointerException thrown\n" =
      { total_entries := 1
        level_distribution := [(.Error, 1)]
        time_distribution := [("2024-01-15 10", 1)]
        error_patterns := [("NullPointerException", 1)]
        top_messages := [("NullPointerException thrown", 1)]
        time_range := some (⟨2024, 1, 15, 10, 31, 0, 0⟩, ⟨2024, 1, 15, 10, 31, 0, 0⟩) } := by
  decide

/-- C10: for every input text the messages listed in top_messages are
pairwise distinct, every count is at least one, and the counts sum to
total_entries. -/
theorem top_messages_distinct_positive_total (content : String) :
    ((analyze content).top_messages.map Prod.fst).Nodup ∧
    (∀ p ∈ (analyze content).top_messages, 1 ≤ p.2) ∧
    sumVals (analyze content).top_messages = (analyze content).total_entries := by
  rw [analyze_eq]
  have hperm := List.perm_insertionSort descCount (messageCountsOf content)
  refine ⟨?_, ?_, ?_⟩
  · exact ((hperm.map Prod.fst).nodup_iff).mpr (messageCounts_keys_nodup content)
  · intro p hp
    exact messageCounts_vals_pos content p (hperm.subset hp)
  · show sumVals (List.insertionSort descCount (messageCountsOf content)) =
      (entriesOf content).length
    have hsum : sumVals (List.insertionSort descCount (messageCountsOf content)) =
        sumVals (messageCountsOf content) := by
      unfold sumVals
      exact (hperm.map Prod.snd).sum_eq
    rw [hsum]
    exact messageCounts_sum content

end Rtools
